import Mathlib

/-
Verification of the distributed key-value store coordinator
(`distributedkeyvaluestore/dist.py` and `distributedkeyvaluestore/node.py`).

The coordinator routes `get`/`put` over a fixed list of storage nodes,
fans writes out to replicas chosen by a ring walk, and accepts a write
when a quorum of nodes acknowledged it.

Modelling conventions:
- A node is represented by its Python object identity, a natural number.
  The coordinator never reads `node_id`, so only identity matters.
- A node's observable behaviour is a `NodeState`: the data visible through
  `get`, plus `putOk`, which decides whether a `put` on that node succeeds
  (the abstract `Node.put -> bool` contract of `node.py`; for `KVNode`,
  `putOk` is constantly `true` and `put` always stores).
- Python's built-in `hash` on strings is process-seeded; it is passed
  everywhere as an explicit parameter `h : Key → Int`.
- `None`-producing failure paths (the `ZeroDivisionError` raised by
  `hash(key) % len(self.nodes)` on an empty cluster) are modelled by
  `Option`.
- Coordinator calls into nodes are recorded in a `List Call` trace so that
  properties such as "no replica is contacted" are provable.
-/

namespace DistKV

/-- Keys are Python strings. -/
abbrev Key := String

/-- Values are byte strings, modelled as lists of naturals. -/
abbrev Val := List Nat

/-- The observable state of one storage node: the mapping served by `get`
(`KVNode.data`) and the success behaviour of `put` (`putOk`), which is
failure injection for the abstract `Node.put -> bool` contract. -/
structure NodeState where
  data : Key → Option Val
  putOk : Key → Val → Bool

/-- A node-level `put`: when `putOk` grants it, store the value and report
success (`KVNode.put`, node.py lines 33-36); otherwise leave the node
unchanged and report failure. -/
def nodePut (st : NodeState) (key : Key) (v : Val) : NodeState × Bool :=
  if st.putOk key v then
    ({ st with data := fun k => if k = key then some v else st.data k }, true)
  else (st, false)

/-- A node-level `get`: `self.data.get(key)` (`KVNode.get`, node.py
lines 38-39). `none` covers both an absent key and a node that cannot
answer. -/
def nodeGet (st : NodeState) (key : Key) : Option Val :=
  st.data key

/-- A freshly constructed `KVNode` (node.py lines 25-27): empty dictionary,
and `put` always succeeds. -/
def kvNodeInit : NodeState :=
  { data := fun _ => none, putOk := fun _ _ => true }

/-- One call issued by the coordinator to a node (named by identity). -/
inductive Call where
  | put (node : Nat) (key : Key) : Call
  | get (node : Nat) (key : Key) : Call
  | delete (node : Nat) (key : Key) : Call
  deriving DecidableEq

/-- The coordinator's state, as built by `DistributedKeyValueStore.__init__`
(dist.py lines 7-9): the node list as given and
`replication_factor = min(len(nodes), replication_factor)`. -/
structure DistributedKeyValueStore where
  nodes : List Nat
  replication_factor : Int
  deriving DecidableEq

/-- `DistributedKeyValueStore.__init__` (dist.py lines 7-9). It performs no
validation: any node list, including the empty one, and any integer
replication factor are accepted. -/
def DistributedKeyValueStore.make (nodes : List Nat) (replication_factor : Int) :
    DistributedKeyValueStore :=
  { nodes := nodes, replication_factor := min (nodes.length : Int) replication_factor }

/-- `_get_primary_node_for_key` (dist.py lines 11-14):
`index = abs(hash(key) % len(self.nodes))`, return `self.nodes[index]`.
The result is `none` exactly when the node list is empty, where Python
raises `ZeroDivisionError` from `% 0`. -/
def DistributedKeyValueStore.getPrimaryNodeForKey (s : DistributedKeyValueStore)
    (h : Key → Int) (key : Key) : Option Nat :=
  if s.nodes.length = 0 then none
  else s.nodes[(h key % (s.nodes.length : Int)).natAbs]?

/-- The loop of `_get_replica_nodes` (dist.py lines 22-28): for
`i = 0, 1, ...` while `fuel` iterations remain, let
`replica_index = (primary_index + i) % len(nodes)`, append
`nodes[replica_index]` unless it is the primary index, and stop as soon as
`len(replicas) == replication_factor - 1`. The `getD` default is
irrelevant: the index is `< nodes.length` whenever the list is nonempty. -/
def replicaLoop (nodes : List Nat) (rf : Int) (primaryIndex : Nat) :
    Nat → Nat → List Nat → List Nat
  | 0, _, acc => acc
  | fuel + 1, i, acc =>
    let idx := (primaryIndex + i) % nodes.length
    let acc' := if primaryIndex = idx then acc else acc ++ [nodes.getD idx 0]
    if (acc'.length : Int) = rf - 1 then acc'
    else replicaLoop nodes rf primaryIndex fuel (i + 1) acc'

/-- `_get_replica_nodes` (dist.py lines 16-30). The final
`list(set(replicas))` is modelled by `List.dedup`, which keeps exactly the
set of collected elements; CPython's `set` iteration order depends on the
objects' memory addresses and is not modelled (see the ordering claims). -/
def DistributedKeyValueStore.getReplicaNodes (s : DistributedKeyValueStore)
    (primary : Nat) : List Nat :=
  if s.nodes.length = 1 ∨ s.replication_factor ≤ 1 then []
  else
    (replicaLoop s.nodes s.replication_factor (s.nodes.indexOf primary)
      s.replication_factor.toNat 0 []).dedup

/-- `get` (dist.py lines 32-37): resolve the primary for the key, read from
it alone, and return its answer unchanged. `none` models the empty-cluster
`ZeroDivisionError` of primary resolution. -/
def DistributedKeyValueStore.get (s : DistributedKeyValueStore) (h : Key → Int)
    (env : Nat → NodeState) (key : Key) : Option (Option Val × List Call) :=
  match s.getPrimaryNodeForKey h key with
  | none => none
  | some primary => some (nodeGet (env primary) key, [Call.get primary key])

/-- The replica fan-out loop of `put` (dist.py lines 48-55): call `put` on
each replica in turn, counting successes. A failed replica only reaches the
hinted-handoff placeholder, which is a no-op (`...`). Returns the updated
node states, the extended call trace, and the success count. -/
def replicaFanout (key : Key) (v : Val) :
    List Nat → (Nat → NodeState) → List Call → Nat →
    (Nat → NodeState) × List Call × Nat
  | [], env, tr, cnt => (env, tr, cnt)
  | r :: rest, env, tr, cnt =>
    let st := nodePut (env r) key v
    replicaFanout key v rest (fun n => if n = r then st.1 else env n)
      (tr ++ [Call.put r key]) (if st.2 then cnt + 1 else cnt)

/-- Integer ceiling of `m / 2`. Python computes `ceil(m / 2)` through float
division, which is exact for every magnitude reachable here. With Lean's
Euclidean division, `⌈m / 2⌉ = (m + 1) / 2` for every integer `m`. -/
def ceilHalf (m : Int) : Int :=
  (m + 1) / 2

/-- The quorum computation of `put` (dist.py lines 57-59):
`writeQuorum = 1 + ceil((replication_factor - 1) / 2)`, overridden to `1`
when the replication factor is `1`. -/
def DistributedKeyValueStore.writeQuorum (s : DistributedKeyValueStore) : Int :=
  if s.replication_factor = 1 then 1 else 1 + ceilHalf (s.replication_factor - 1)

/-- `put` (dist.py lines 39-63): write the primary; if that fails return
`False` at once; otherwise fan out to the replicas, tally their successes,
and accept iff `1 + replica_successes >= writeQuorum`. Returns the accept
flag, the updated node states, and the trace of node calls issued; `none`
models the empty-cluster `ZeroDivisionError` of primary resolution. -/
def DistributedKeyValueStore.put (s : DistributedKeyValueStore) (h : Key → Int)
    (env : Nat → NodeState) (key : Key) (v : Val) :
    Option (Bool × (Nat → NodeState) × List Call) :=
  match s.getPrimaryNodeForKey h key with
  | none => none
  | some primary =>
    let pst := nodePut (env primary) key v
    let env1 : Nat → NodeState := fun n => if n = primary then pst.1 else env n
    if pst.2 then
      let out := replicaFanout key v (s.getReplicaNodes primary) env1
        [Call.put primary key] 0
      some (decide ((1 : Int) + (out.2.2 : Int) ≥ s.writeQuorum), out.1, out.2.1)
    else
      some (false, env1, [Call.put primary key])

/-- The ring walk of length `count` starting one step past `primaryIndex`:
element `j` (for `j = 1, ..., count`) is the node at position
`(primaryIndex + j) % len(nodes)`. This is the order in which the replica
loop collects nodes. -/
def ringWalk (nodes : List Nat) (primaryIndex : Nat) : Nat → List Nat
  | 0 => []
  | j + 1 =>
    ringWalk nodes primaryIndex j ++
      [nodes.getD ((primaryIndex + (j + 1)) % nodes.length) 0]

/-- The write quorum exactly as the specification phrases it: `1` when the
replication factor is `1`, otherwise `1 + ⌈(rf - 1) / 2⌉` with a true
rational ceiling. -/
def specWriteQuorum (rf : Int) : Int :=
  if rf = 1 then 1 else 1 + ⌈(((rf : ℚ) - 1) / 2 : ℚ)⌉

/-- The number of replicas of `primary` whose `put` succeeds under the node
behaviours `env`: the replica-acknowledgement tally of the specification. -/
def replicaSuccessCount (s : DistributedKeyValueStore) (env : Nat → NodeState)
    (key : Key) (v : Val) (primary : Nat) : Nat :=
  ((s.getReplicaNodes primary).filter (fun r => (env r).putOk key v)).length

/-! ### Arithmetic of the quorum -/

/-- The rational ceiling of `m / 2` is `(m + 1) / 2` in integer division. -/
theorem ceil_half_rat (m : Int) : ⌈(((m : ℚ)) / 2 : ℚ)⌉ = (m + 1) / 2 := by
  have h1 : 2 * ((m + 1) / 2) ≤ m + 1 := by omega
  have h2 : m + 1 ≤ 2 * ((m + 1) / 2) + 1 := by omega
  rw [Int.ceil_eq_iff]
  constructor
  · have hq : ((2 * ((m + 1) / 2) : ℤ) : ℚ) ≤ ((m + 1 : ℤ) : ℚ) := by exact_mod_cast h1
    push_cast at hq
    linarith
  · have hq : ((m + 1 : ℤ) : ℚ) ≤ ((2 * ((m + 1) / 2) + 1 : ℤ) : ℚ) := by exact_mod_cast h2
    push_cast at hq
    linarith

/-- The quorum computed by the code coincides with the specification's
formula for every replication factor. -/
theorem writeQuorum_eq_spec (s : DistributedKeyValueStore) :
    s.writeQuorum = specWriteQuorum s.replication_factor := by
  unfold DistributedKeyValueStore.writeQuorum specWriteQuorum ceilHalf
  split
  · rfl
  · rw [show ((s.replication_factor : ℚ) - 1) = ((s.replication_factor - 1 : ℤ) : ℚ) by
      push_cast; ring]
    rw [ceil_half_rat]

/-! ### Node-level `put` -/

/-- A node's `put` never changes its success behaviour. -/
theorem nodePut_putOk (st : NodeState) (key : Key) (v : Val) :
    (nodePut st key v).1.putOk = st.putOk := by
  unfold nodePut
  split <;> rfl

/-- A successful node-level `put` reports success exactly when `putOk`
grants it. -/
theorem nodePut_snd (st : NodeState) (key : Key) (v : Val) :
    (nodePut st key v).2 = st.putOk key v := by
  unfold nodePut
  split <;> simp_all

/-- After a granted node-level `put`, the node stores the written value. -/
theorem nodePut_data_of_ok (st : NodeState) (key : Key) (v : Val)
    (hok : st.putOk key v = true) :
    (nodePut st key v).1.data key = some v := by
  unfold nodePut
  rw [hok]
  simp

/-- A node-level `put` either leaves a key's entry unchanged or sets it to
the written value: an entry already equal to the written value persists. -/
theorem nodePut_data_persists (st : NodeState) (key : Key) (v : Val)
    (hst : st.data key = some v) :
    (nodePut st key v).1.data key = some v := by
  unfold nodePut
  split <;> simp [hst]

/-! ### Primary resolution -/

/-- On a nonempty cluster, primary resolution succeeds and yields a node of
the cluster. -/
theorem getPrimaryNodeForKey_mem (s : DistributedKeyValueStore) (h : Key → Int)
    (key : Key) (hne : s.nodes ≠ []) :
    ∃ primary, s.getPrimaryNodeForKey h key = some primary ∧ primary ∈ s.nodes := by
  have hlen : 0 < s.nodes.length := List.length_pos.mpr hne
  have hlt : (h key % (s.nodes.length : Int)).natAbs < s.nodes.length := by
    have h0 : (0 : Int) ≤ h key % (s.nodes.length : Int) :=
      Int.emod_nonneg _ (by exact_mod_cast Nat.pos_iff_ne_zero.mp hlen)
    have h1 : h key % (s.nodes.length : Int) < (s.nodes.length : Int) :=
      Int.emod_lt_of_pos _ (by exact_mod_cast hlen)
    omega
  refine ⟨s.nodes[(h key % (s.nodes.length : Int)).natAbs], ?_, List.getElem_mem hlt⟩
  unfold DistributedKeyValueStore.getPrimaryNodeForKey
  rw [if_neg (by omega)]
  exact List.getElem?_eq_getElem hlt

/-! ### The replica fan-out -/

/-- The fan-out never changes any node's success behaviour. -/
theorem replicaFanout_putOk (key : Key) (v : Val) :
    ∀ (rs : List Nat) (env : Nat → NodeState) (tr : List Call) (cnt : Nat) (n : Nat),
      ((replicaFanout key v rs env tr cnt).1 n).putOk = (env n).putOk := by
  intro rs
  induction rs with
  | nil => intro env tr cnt n; rfl
  | cons r rest ih =>
    intro env tr cnt n
    unfold replicaFanout
    rw [ih]
    by_cases hn : n = r
    · subst hn; simp [nodePut_putOk]
    · simp [hn]

/-- The fan-out's success tally is the number of replicas whose `putOk`
grants the write, measured against the node behaviours at entry. -/
theorem replicaFanout_cnt (key : Key) (v : Val) :
    ∀ (rs : List Nat) (env : Nat → NodeState) (tr : List Call) (cnt : Nat),
      (replicaFanout key v rs env tr cnt).2.2 =
        cnt + (rs.filter (fun r => (env r).putOk key v)).length := by
  intro rs
  induction rs with
  | nil => intro env tr cnt; simp [replicaFanout]
  | cons r rest ih =>
    intro env tr cnt
    unfold replicaFanout
    rw [ih]
    have hfil : rest.filter
        (fun x => ((fun n => if n = r then (nodePut (env r) key v).1 else env n) x).putOk key v) =
        rest.filter (fun x => (env x).putOk key v) := by
      refine List.filter_congr ?_
      intro x _
      by_cases hx : x = r
      · subst hx; simp [nodePut_putOk]
      · simp [hx]
    rw [hfil, nodePut_snd]
    by_cases hok : (env r).putOk key v
    · simp [hok, List.filter_cons]
      omega
    · simp [hok, List.filter_cons]

/-- The fan-out appends exactly one `put` call per replica, in list order. -/
theorem replicaFanout_trace (key : Key) (v : Val) :
    ∀ (rs : List Nat) (env : Nat → NodeState) (tr : List Call) (cnt : Nat),
      (replicaFanout key v rs env tr cnt).2.1 =
        tr ++ rs.map (fun r => Call.put r key) := by
  intro rs
  induction rs with
  | nil => intro env tr cnt; simp [replicaFanout]
  | cons r rest ih =>
    intro env tr cnt
    unfold replicaFanout
    rw [ih]
    simp

/-- A key-value entry equal to the written value survives the fan-out on
every node. -/
theorem replicaFanout_data_persists (key : Key) (v : Val) :
    ∀ (rs : List Nat) (env : Nat → NodeState) (tr : List Call) (cnt : Nat) (n : Nat),
      (env n).data key = some v →
      ((replicaFanout key v rs env tr cnt).1 n).data key = some v := by
  intro rs
  induction rs with
  | nil => intro env tr cnt n hn; exact hn
  | cons r rest ih =>
    intro env tr cnt n hn
    unfold replicaFanout
    refine ih _ _ _ n ?_
    by_cases hx : n = r
    · subst hx
      simp only [if_pos rfl]
      exact nodePut_data_persists _ _ _ hn
    · simpa [hx] using hn

/-- Every replica whose `putOk` grants the write stores the written value
after the fan-out. -/
theorem replicaFanout_data_of_ok (key : Key) (v : Val) :
    ∀ (rs : List Nat) (env : Nat → NodeState) (tr : List Call) (cnt : Nat) (r : Nat),
      r ∈ rs → (env r).putOk key v = true →
      ((replicaFanout key v rs env tr cnt).1 r).data key = some v := by
  intro rs
  induction rs with
  | nil => intro env tr cnt r hr; exact absurd hr (List.not_mem_nil r)
  | cons a rest ih =>
    intro env tr cnt r hr hok
    unfold replicaFanout
    rcases List.mem_cons.mp hr with hra | hrr
    · subst hra
      refine replicaFanout_data_persists key v _ _ _ _ r ?_
      simp only [if_pos rfl]
      exact nodePut_data_of_ok _ _ _ hok
    · refine ih _ _ _ r hrr ?_
      by_cases hx : r = a
      · subst hx; simpa [nodePut_putOk] using hok
      · simpa [hx] using hok

/-! ### The ring walk and the replica loop -/

/-- The ring walk of length `k` has `k` elements. -/
theorem ringWalk_length (nodes : List Nat) (pi : Nat) :
    ∀ k, (ringWalk nodes pi k).length = k := by
  intro k
  induction k with
  | zero => rfl
  | succ j ih => rw [ringWalk, List.length_append, ih]; rfl

/-- Every element of the ring walk is a node at ring offset `1 ≤ j ≤ k`
from the primary position. -/
theorem ringWalk_mem (nodes : List Nat) (pi : Nat) :
    ∀ k x, x ∈ ringWalk nodes pi k →
      ∃ j, 1 ≤ j ∧ j ≤ k ∧ x = nodes.getD ((pi + j) % nodes.length) 0 := by
  intro k
  induction k with
  | zero => intro x hx; exact absurd hx (List.not_mem_nil x)
  | succ j ih =>
    intro x hx
    rw [ringWalk, List.mem_append] at hx
    rcases hx with hx | hx
    · obtain ⟨j', h1, h2, h3⟩ := ih x hx
      exact ⟨j', h1, by omega, h3⟩
    · exact ⟨j + 1, by omega, by omega, (List.mem_singleton.mp hx)⟩

/-- Distinct ring offsets below the cluster size land on distinct
positions. -/
theorem ring_index_inj (len pi j1 j2 : Nat)
    (h1 : j1 < len) (h2 : j2 < len) (hne : j1 ≠ j2) :
    (pi + j1) % len ≠ (pi + j2) % len := by
  intro h
  have hj : j1 ≡ j2 [MOD len] := Nat.ModEq.add_left_cancel' pi h
  rw [Nat.ModEq, Nat.mod_eq_of_lt h1, Nat.mod_eq_of_lt h2] at hj
  exact hne hj

/-- `getD` with an in-range index is plain indexing. -/
theorem getD_eq_getElem (l : List Nat) (i : Nat) (hi : i < l.length) :
    l.getD i 0 = l[i] := by
  rw [List.getD_eq_getElem?_getD, List.getElem?_eq_getElem hi]
  rfl

/-- On a duplicate-free cluster, a ring walk that stays within one lap has
no duplicate nodes. -/
theorem ringWalk_nodup (nodes : List Nat) (pi : Nat) (hnd : nodes.Nodup)
    (hpi : pi < nodes.length) :
    ∀ k, k ≤ nodes.length - 1 → (ringWalk nodes pi k).Nodup := by
  have hlen : 0 < nodes.length := by omega
  intro k
  induction k with
  | zero => intro _; exact List.nodup_nil
  | succ j ih =>
    intro hk
    rw [ringWalk, List.nodup_append]
    refine ⟨ih (by omega), List.nodup_singleton _, ?_⟩
    intro x hx hx1
    rw [List.mem_singleton] at hx1
    obtain ⟨j', hj1, hj2, hj3⟩ := ringWalk_mem nodes pi j x hx
    have hij : (pi + j') % nodes.length ≠ (pi + (j + 1)) % nodes.length :=
      ring_index_inj nodes.length pi j' (j + 1) (by omega) (by omega) (by omega)
    have hb1 : (pi + j') % nodes.length < nodes.length := Nat.mod_lt _ hlen
    have hb2 : (pi + (j + 1)) % nodes.length < nodes.length := Nat.mod_lt _ hlen
    rw [hj3, getD_eq_getElem _ _ hb1] at hx1
    rw [getD_eq_getElem _ _ hb2] at hx1
    exact hij ((hnd.getElem_inj_iff).mp hx1)

/-- On a duplicate-free cluster, the primary is not on a ring walk that
stays within one lap. -/
theorem ringWalk_not_mem_primary (nodes : List Nat) (pi : Nat) (hnd : nodes.Nodup)
    (hpi : pi < nodes.length) (k : Nat) (hk : k ≤ nodes.length - 1) :
    nodes[pi] ∉ ringWalk nodes pi k := by
  have hlen : 0 < nodes.length := by omega
  intro hx
  obtain ⟨j, hj1, hj2, hj3⟩ := ringWalk_mem nodes pi k nodes[pi] hx
  have hij : (pi + 0) % nodes.length ≠ (pi + j) % nodes.length :=
    ring_index_inj nodes.length pi 0 j (by omega) (by omega) (by omega)
  rw [Nat.add_zero, Nat.mod_eq_of_lt hpi] at hij
  have hb : (pi + j) % nodes.length < nodes.length := Nat.mod_lt _ hlen
  rw [getD_eq_getElem _ _ hb] at hj3
  exact hij ((hnd.getElem_inj_iff).mp hj3)

/-- The replica loop, entered one step past the primary with the walk so
far accumulated, collects exactly one lap-bounded ring walk of
`replication_factor - 1` nodes (`break` fires on the last append). -/
theorem replicaLoop_eq_ringWalk_aux (nodes : List Nat) (rf : Int) (pi : Nat)
    (hpi : pi < nodes.length)
    (hrf2 : 2 ≤ rf) (hrfn : rf ≤ (nodes.length : Int)) :
    ∀ (fuel i : Nat), 1 ≤ i → (i : Int) + (fuel : Int) = rf → i ≤ rf.toNat - 1 →
      replicaLoop nodes rf pi fuel i (ringWalk nodes pi (i - 1)) =
        ringWalk nodes pi (rf.toNat - 1) := by
  intro fuel
  induction fuel with
  | zero => intro i h1 h2 h3; omega
  | succ f ih =>
    intro i h1 h2 h3
    have hlen : 2 ≤ nodes.length := by omega
    have hidx : pi ≠ (pi + i) % nodes.length := by
      have hd : (pi + 0) % nodes.length ≠ (pi + i) % nodes.length :=
        ring_index_inj nodes.length pi 0 i (by omega) (by omega) (by omega)
      rwa [Nat.add_zero, Nat.mod_eq_of_lt hpi] at hd
    have hi' : i - 1 + 1 = i := by omega
    have hrw : ringWalk nodes pi i =
        ringWalk nodes pi (i - 1) ++ [nodes.getD ((pi + i) % nodes.length) 0] := by
      conv_lhs => rw [← hi']
      rw [ringWalk, hi']
    simp only [replicaLoop]
    rw [if_neg hidx, ← hrw, ringWalk_length]
    by_cases hbreak : (i : Int) = rf - 1
    · rw [if_pos hbreak]
      congr 1
      omega
    · rw [if_neg hbreak]
      have hstep := ih (i + 1) (by omega) (by push_cast; omega) (by omega)
      rwa [show i + 1 - 1 = i by omega] at hstep

/-- On a duplicate-free cluster with `2 ≤ replication_factor ≤ len(nodes)`,
`_get_replica_nodes` returns exactly the ring walk of
`replication_factor - 1` nodes following the primary. -/
theorem getReplicaNodes_eq_ringWalk (s : DistributedKeyValueStore) (primary : Nat)
    (hmem : primary ∈ s.nodes) (hnd : s.nodes.Nodup)
    (hrf2 : 2 ≤ s.replication_factor)
    (hrfn : s.replication_factor ≤ (s.nodes.length : Int)) :
    s.getReplicaNodes primary =
      ringWalk s.nodes (s.nodes.indexOf primary) (s.replication_factor.toNat - 1) := by
  have hlen : 2 ≤ s.nodes.length := by omega
  have hpi : s.nodes.indexOf primary < s.nodes.length :=
    List.indexOf_lt_length.mpr hmem
  unfold DistributedKeyValueStore.getReplicaNodes
  rw [if_neg (by omega)]
  obtain ⟨f, hf⟩ : ∃ f, s.replication_factor.toNat = f + 1 :=
    ⟨s.replication_factor.toNat - 1, by omega⟩
  rw [hf]
  simp only [replicaLoop]
  have hcond : s.nodes.indexOf primary =
      (s.nodes.indexOf primary + 0) % s.nodes.length := by
    rw [Nat.add_zero, Nat.mod_eq_of_lt hpi]
  rw [if_pos hcond]
  rw [if_neg (by simp only [List.length_nil, Nat.cast_zero]; omega)]
  have hloop := replicaLoop_eq_ringWalk_aux s.nodes s.replication_factor
    (s.nodes.indexOf primary) hpi hrf2 hrfn f 1 (by omega) (by omega) (by omega)
  rw [show replicaLoop s.nodes s.replication_factor (s.nodes.indexOf primary) f (0 + 1) [] =
      ringWalk s.nodes (s.nodes.indexOf primary) (s.replication_factor.toNat - 1)
    from hloop]
  rw [show f + 1 - 1 = s.replication_factor.toNat - 1 by omega]
  exact List.Nodup.dedup
    (ringWalk_nodup s.nodes (s.nodes.indexOf primary) hnd hpi
      (s.replication_factor.toNat - 1) (by omega))

/-! ### Characterizations of `put` -/

/-- `put` when the primary accepts the write: the accept flag compares
`1 + replicaSuccessCount` against the quorum, the trace is the primary's
`put` followed by one `put` per replica in list order, and the written
value rests on the primary and on every accepting replica afterwards. -/
theorem put_char_ok (s : DistributedKeyValueStore) (h : Key → Int)
    (env : Nat → NodeState) (key : Key) (v : Val) (primary : Nat)
    (hp : s.getPrimaryNodeForKey h key = some primary)
    (hps : (env primary).putOk key v = true) :
    ∃ env' : Nat → NodeState,
      s.put h env key v = some
        (decide ((1 : Int) + ((replicaSuccessCount s env key v primary : Nat) : Int) ≥
            s.writeQuorum),
          env',
          Call.put primary key :: (s.getReplicaNodes primary).map (fun r => Call.put r key)) ∧
      (env' primary).data key = some v ∧
      (∀ r ∈ s.getReplicaNodes primary, (env r).putOk key v = true →
        (env' r).data key = some v) := by
  have hok : (nodePut (env primary) key v).2 = true := by rw [nodePut_snd, hps]
  simp only [DistributedKeyValueStore.put, hp]
  rw [if_pos hok]
  refine ⟨(replicaFanout key v (s.getReplicaNodes primary)
    (fun n => if n = primary then (nodePut (env primary) key v).1 else env n)
    [Call.put primary key] 0).1, ?_, ?_, ?_⟩
  · have hcnt : (replicaFanout key v (s.getReplicaNodes primary)
        (fun n => if n = primary then (nodePut (env primary) key v).1 else env n)
        [Call.put primary key] 0).2.2 = replicaSuccessCount s env key v primary := by
      rw [replicaFanout_cnt, Nat.zero_add]
      unfold replicaSuccessCount
      congr 1
      refine List.filter_congr ?_
      intro x _
      by_cases hx : x = primary
      · subst hx; simp [nodePut_putOk]
      · simp [hx]
    rw [hcnt, replicaFanout_trace]
    simp
  · refine replicaFanout_data_persists key v _ _ _ _ primary ?_
    simp only [if_pos rfl]
    exact nodePut_data_of_ok _ _ _ hps
  · intro r hr hok2
    refine replicaFanout_data_of_ok key v _ _ _ _ r hr ?_
    by_cases hx : r = primary
    · subst hx; simpa [nodePut_putOk] using hok2
    · simpa [hx] using hok2

/-- `put` when the primary refuses the write: the result is `false`, no
node state changes, and the only node call issued is the primary's `put`. -/
theorem put_char_fail (s : DistributedKeyValueStore) (h : Key → Int)
    (env : Nat → NodeState) (key : Key) (v : Val) (primary : Nat)
    (hp : s.getPrimaryNodeForKey h key = some primary)
    (hpf : (env primary).putOk key v = false) :
    s.put h env key v = some (false, env, [Call.put primary key]) := by
  have hok : (nodePut (env primary) key v).2 = false := by rw [nodePut_snd, hpf]
  have hst : (nodePut (env primary) key v).1 = env primary := by
    unfold nodePut
    rw [hpf]
    simp
  simp only [DistributedKeyValueStore.put, hp]
  rw [if_neg (by rw [hok]; exact Bool.false_ne_true)]
  have henv : (fun n => if n = primary then (nodePut (env primary) key v).1 else env n) = env := by
    funext n
    by_cases hn : n = primary
    · subst hn; rw [if_pos rfl, hst]
    · rw [if_neg hn]
  rw [henv]

/-! ### The claims -/

/-- A node environment in which node `2` refuses writes and every other
node accepts and stores them; used to exercise a partially failing
replica set. -/
def envTwoFails : Nat → NodeState :=
  fun n => { data := fun _ => none, putOk := fun _ _ => n != 2 }

/-- C1: on a topology whose effective replication factor `RF` satisfies
`1 ≤ RF ≤ len(nodes)`, when the primary write succeeds, `put` returns
`true` iff `1 + replicaSuccessCount ≥ writeQuorum`, where the quorum is `1`
for `RF = 1` and `1 + ⌈(RF - 1) / 2⌉` otherwise (so RF=3 → 2, RF=4 → 3,
RF=5 → 3, by evaluating `specWriteQuorum`). -/
theorem put_accepted_iff_quorum (s : DistributedKeyValueStore) (h : Key → Int)
    (env : Nat → NodeState) (key : Key) (v : Val) (primary : Nat)
    (hrf1 : 1 ≤ s.replication_factor)
    (hrfn : s.replication_factor ≤ (s.nodes.length : Int))
    (hp : s.getPrimaryNodeForKey h key = some primary)
    (hps : (env primary).putOk key v = true) :
    ∃ env' tr, s.put h env key v = some
      (decide ((1 : Int) + ((replicaSuccessCount s env key v primary : Nat) : Int) ≥
        specWriteQuorum s.replication_factor), env', tr) := by
  obtain ⟨env', hput, _, _⟩ := put_char_ok s h env key v primary hp hps
  rw [writeQuorum_eq_spec] at hput
  exact ⟨env', _, hput⟩

/-- Witness for C1: a three-node cluster with replication factor 3, where
the key routes to node 1 and replica node 2 refuses the write. -/
theorem put_accepted_iff_quorum_witness :
    ((1 : Int) ≤ (DistributedKeyValueStore.make [0, 1, 2] 3).replication_factor ∧
      (DistributedKeyValueStore.make [0, 1, 2] 3).replication_factor ≤
        ((DistributedKeyValueStore.make [0, 1, 2] 3).nodes.length : Int) ∧
      (DistributedKeyValueStore.make [0, 1, 2] 3).getPrimaryNodeForKey
        (fun _ => 1) "k" = some 1 ∧
      (envTwoFails 1).putOk "k" [5] = true) ∧
    ∃ env' tr, (DistributedKeyValueStore.make [0, 1, 2] 3).put (fun _ => 1)
        envTwoFails "k" [5] = some
      (decide ((1 : Int) + ((replicaSuccessCount (DistributedKeyValueStore.make [0, 1, 2] 3)
          envTwoFails "k" [5] 1 : Nat) : Int) ≥
        specWriteQuorum (DistributedKeyValueStore.make [0, 1, 2] 3).replication_factor),
        env', tr) :=
  ⟨⟨by decide, by decide, by decide, by decide⟩,
    put_accepted_iff_quorum (DistributedKeyValueStore.make [0, 1, 2] 3) (fun _ => 1)
      envTwoFails "k" [5] 1 (by decide) (by decide) (by decide) (by decide)⟩

/-- C2: if the primary's `put` fails, the coordinator's `put` returns
`false` immediately, no node state changes, and the trace holds exactly the
primary's `put` call — no replica receives a `put`. -/
theorem put_primary_failure_no_replica_calls (s : DistributedKeyValueStore)
    (h : Key → Int) (env : Nat → NodeState) (key : Key) (v : Val) (primary : Nat)
    (hp : s.getPrimaryNodeForKey h key = some primary)
    (hpf : (env primary).putOk key v = false) :
    s.put h env key v = some (false, env, [Call.put primary key]) :=
  put_char_fail s h env key v primary hp hpf

/-- Witness for C2: a two-node cluster in which every node refuses writes;
the key routes to node 0 and `put` stops there. -/
theorem put_primary_failure_no_replica_calls_witness :
    ((DistributedKeyValueStore.make [0, 1] 2).getPrimaryNodeForKey
        (fun _ => 0) "k" = some 0 ∧
      ((fun _ => { data := fun _ => none, putOk := fun _ _ => false } :
          Nat → NodeState) 0).putOk "k" [5] = false) ∧
    (DistributedKeyValueStore.make [0, 1] 2).put (fun _ => 0)
        (fun _ => { data := fun _ => none, putOk := fun _ _ => false }) "k" [5] =
      some (false, (fun _ => { data := fun _ => none, putOk := fun _ _ => false }),
        [Call.put 0 "k"]) :=
  ⟨⟨by decide, by decide⟩,
    put_primary_failure_no_replica_calls (DistributedKeyValueStore.make [0, 1] 2)
      (fun _ => 0) (fun _ => { data := fun _ => none, putOk := fun _ _ => false })
      "k" [5] 0 (by decide) (by decide)⟩

/-- C3: on a duplicate-free cluster satisfying the construction invariant
`1 ≤ RF ≤ len(nodes)`, the replica set of any primary in the topology never
contains the primary, has no duplicates, has exactly
`min(RF - 1, len(nodes) - 1)` elements, and is empty whenever `RF ≤ 1` or
the cluster has a single node. -/
theorem replica_set_properties (s : DistributedKeyValueStore) (primary : Nat)
    (hnd : s.nodes.Nodup) (hmem : primary ∈ s.nodes)
    (hrf1 : 1 ≤ s.replication_factor)
    (hrfn : s.replication_factor ≤ (s.nodes.length : Int)) :
    primary ∉ s.getReplicaNodes primary ∧
    (s.getReplicaNodes primary).Nodup ∧
    (s.getReplicaNodes primary).length =
      min (s.replication_factor.toNat - 1) (s.nodes.length - 1) ∧
    ((s.replication_factor ≤ 1 ∨ s.nodes.length = 1) →
      s.getReplicaNodes primary = []) := by
  have hlenpos : 0 < s.nodes.length := List.length_pos.mpr (List.ne_nil_of_mem hmem)
  by_cases hsmall : s.nodes.length = 1 ∨ s.replication_factor ≤ 1
  · have hempty : s.getReplicaNodes primary = [] := by
      unfold DistributedKeyValueStore.getReplicaNodes
      rw [if_pos hsmall]
    refine ⟨by simp [hempty], by simp [hempty], ?_, fun _ => hempty⟩
    rw [hempty, List.length_nil]
    rcases hsmall with hs1 | hs1 <;> omega
  · push_neg at hsmall
    obtain ⟨hlen1, hrf2⟩ := hsmall
    have hpi : s.nodes.indexOf primary < s.nodes.length :=
      List.indexOf_lt_length.mpr hmem
    have hrw := getReplicaNodes_eq_ringWalk s primary hmem hnd (by omega) hrfn
    refine ⟨?_, ?_, ?_, ?_⟩
    · rw [hrw]
      have hprim : s.nodes[s.nodes.indexOf primary] = primary :=
        List.getElem_indexOf hpi
      have hnm := ringWalk_not_mem_primary s.nodes (s.nodes.indexOf primary) hnd hpi
        (s.replication_factor.toNat - 1) (by omega)
      rwa [hprim] at hnm
    · rw [hrw]
      exact ringWalk_nodup s.nodes (s.nodes.indexOf primary) hnd hpi
        (s.replication_factor.toNat - 1) (by omega)
    · rw [hrw, ringWalk_length]
      omega
    · intro hc
      rcases hc with hc | hc <;> omega

/-- Witness for C3: the three-node cluster with replication factor 3 and
primary node 1. -/
theorem replica_set_properties_witness :
    ((DistributedKeyValueStore.make [0, 1, 2] 3).nodes.Nodup ∧
      1 ∈ (DistributedKeyValueStore.make [0, 1, 2] 3).nodes ∧
      (1 : Int) ≤ (DistributedKeyValueStore.make [0, 1, 2] 3).replication_factor ∧
      (DistributedKeyValueStore.make [0, 1, 2] 3).replication_factor ≤
        ((DistributedKeyValueStore.make [0, 1, 2] 3).nodes.length : Int)) ∧
    (1 ∉ (DistributedKeyValueStore.make [0, 1, 2] 3).getReplicaNodes 1 ∧
      ((DistributedKeyValueStore.make [0, 1, 2] 3).getReplicaNodes 1).Nodup ∧
      ((DistributedKeyValueStore.make [0, 1, 2] 3).getReplicaNodes 1).length =
        min ((DistributedKeyValueStore.make [0, 1, 2] 3).replication_factor.toNat - 1)
          ((DistributedKeyValueStore.make [0, 1, 2] 3).nodes.length - 1) ∧
      (((DistributedKeyValueStore.make [0, 1, 2] 3).replication_factor ≤ 1 ∨
          (DistributedKeyValueStore.make [0, 1, 2] 3).nodes.length = 1) →
        (DistributedKeyValueStore.make [0, 1, 2] 3).getReplicaNodes 1 = [])) :=
  ⟨⟨by decide, by decide, by decide, by decide⟩,
    replica_set_properties (DistributedKeyValueStore.make [0, 1, 2] 3) 1
      (by decide) (by decide) (by decide) (by decide)⟩

/-- C4 (evidence for the code bug): at the cluster `[100, 101, 102]` with
replication factor 3 and the primary at position 1, the loop of
`_get_replica_nodes` collects the replicas in ring-walk order
`[nodes[2], nodes[0]]` — but the function then returns
`list(set(replicas))`, and CPython iterates a `set` of `Node` objects in
hash-table order of their `id()`s (memory addresses), which is not
guaranteed to be the ring-walk order and is not stable across process runs.
The deterministic part of the code, reproduced here, shows the order the
claim requires exists only before the `set` conversion. -/
theorem replica_loop_ring_order_lost_by_set :
    replicaLoop [100, 101, 102] 3 1 3 0 [] = [102, 100] ∧
    replicaLoop [100, 101, 102] 3 1 3 0 [] = ringWalk [100, 101, 102] 1 2 := by
  decide

/-- C5 (evidence for the code bug): primary resolution is a function of the
hash function used. Two hash functions that differ on `"foo"` — as Python's
process-seeded string `hash` can between two runs — route the same key on
the same topology to different primaries; for one fixed hash function the
result is determined (the third conjunct re-applies the same resolution). -/
theorem primary_depends_on_hash_function :
    (DistributedKeyValueStore.make [10, 11] 2).getPrimaryNodeForKey
      (fun _ => 0) "foo" = some 10 ∧
    (DistributedKeyValueStore.make [10, 11] 2).getPrimaryNodeForKey
      (fun _ => 1) "foo" = some 11 ∧
    (DistributedKeyValueStore.make [10, 11] 2).getPrimaryNodeForKey
      (fun _ => 0) "foo" =
      (DistributedKeyValueStore.make [10, 11] 2).getPrimaryNodeForKey
        (fun _ => 0) "foo" := by
  decide

/-- C6 (evidence for the code bug): constructing the coordinator on the
empty node list is not rejected — `__init__` performs no validation and
yields a store with no nodes and replication factor `min(0, 3) = 0` — and
`get`/`put` on it fail only at call time (`none` models the
`ZeroDivisionError` raised by `hash(key) % 0` in primary resolution). -/
theorem empty_cluster_not_rejected_at_construction :
    DistributedKeyValueStore.make [] 3 =
      { nodes := [], replication_factor := 0 } ∧
    (DistributedKeyValueStore.make [] 3).get (fun _ => 0)
      (fun _ => kvNodeInit) "k" = none ∧
    (DistributedKeyValueStore.make [] 3).put (fun _ => 0)
      (fun _ => kvNodeInit) "k" [1] = none :=
  ⟨by decide, rfl, rfl⟩

/-- C7 counterexample: with one node and `replication_factor = 0` — an
integer, as the claim allows — the stored factor is `min(1, 0) = 0`,
violating `1 ≤ effectiveReplicationFactor`. -/
theorem rf_invariant_counterexample :
    ¬ (1 ≤ (DistributedKeyValueStore.make [7] 0).replication_factor) := by
  decide

/-- C7 amended: after construction from a nonempty node list with
`replicationFactor ≥ 1`, the stored effective replication factor satisfies
`1 ≤ effectiveReplicationFactor ≤ len(nodes)`. (The topology is never
reassigned afterwards: `get` and `put` return their results without
producing a modified store, so the bound holds for the coordinator's
lifetime.) -/
theorem rf_invariant_amended (nodes : List Nat) (rf : Int)
    (hne : nodes ≠ []) (h1 : 1 ≤ rf) :
    1 ≤ (DistributedKeyValueStore.make nodes rf).replication_factor ∧
    (DistributedKeyValueStore.make nodes rf).replication_factor ≤
      (nodes.length : Int) := by
  have hlen : 0 < nodes.length := List.length_pos.mpr hne
  unfold DistributedKeyValueStore.make
  constructor
  · simp only [le_min_iff]
    omega
  · exact min_le_left _ _

/-- Witness for the amended C7: one node, requested factor 2, clamped
to 1. -/
theorem rf_invariant_amended_witness :
    (([5] : List Nat) ≠ [] ∧ (1 : Int) ≤ 2) ∧
    (1 ≤ (DistributedKeyValueStore.make [5] 2).replication_factor ∧
      (DistributedKeyValueStore.make [5] 2).replication_factor ≤
        (([5] : List Nat).length : Int)) :=
  ⟨⟨by decide, by decide⟩, rf_invariant_amended [5] 2 (by decide) (by decide)⟩

/-- C8: `get` resolves the primary for the key, issues a `get` to that node
alone, and returns its answer unchanged — the answer is `none` both when
the key is absent at the primary and when the primary cannot answer, and no
replica appears in the trace. -/
theorem get_reads_primary_only (s : DistributedKeyValueStore) (h : Key → Int)
    (env : Nat → NodeState) (key : Key) (primary : Nat)
    (hp : s.getPrimaryNodeForKey h key = some primary) :
    s.get h env key = some ((env primary).data key, [Call.get primary key]) := by
  unfold DistributedKeyValueStore.get
  rw [hp]
  rfl

/-- Witness for C8: a two-node cluster where the key routes to node 0,
whose store is empty, so the answer is `none` and only node 0 is called. -/
theorem get_reads_primary_only_witness :
    (DistributedKeyValueStore.make [0, 1] 2).getPrimaryNodeForKey
      (fun _ => 0) "k" = some 0 ∧
    (DistributedKeyValueStore.make [0, 1] 2).get (fun _ => 0)
      (fun _ => kvNodeInit) "k" =
      some ((kvNodeInit).data "k", [Call.get 0 "k"]) :=
  ⟨by decide,
    get_reads_primary_only (DistributedKeyValueStore.make [0, 1] 2) (fun _ => 0)
      (fun _ => kvNodeInit) "k" 0 (by decide)⟩

/-- C9: `put` never issues a `delete` to any node, whatever the outcome;
and once the primary write succeeds, the primary — and every replica whose
own `put` succeeded — still stores the written value when `put` returns,
whether or not the quorum was met: a `false` result leaves partial writes
in place (no rollback). -/
theorem put_no_delete_no_rollback (s : DistributedKeyValueStore) (h : Key → Int)
    (env : Nat → NodeState) (key : Key) (v : Val) (primary : Nat)
    (hp : s.getPrimaryNodeForKey h key = some primary) :
    (∀ res env' tr, s.put h env key v = some (res, env', tr) →
      ∀ n k, Call.delete n k ∉ tr) ∧
    ((env primary).putOk key v = true →
      ∃ res env' tr, s.put h env key v = some (res, env', tr) ∧
        (env' primary).data key = some v ∧
        ∀ r ∈ s.getReplicaNodes primary, (env r).putOk key v = true →
          (env' r).data key = some v) := by
  constructor
  · intro res env' tr hput n k
    by_cases hps : (env primary).putOk key v = true
    · obtain ⟨e, he, _, _⟩ := put_char_ok s h env key v primary hp hps
      rw [he] at hput
      have h0 := Option.some.inj hput
      have h3 : Call.put primary key ::
          (s.getReplicaNodes primary).map (fun r => Call.put r key) = tr :=
        congrArg (fun p => p.2.2) h0
      rw [← h3]
      simp
    · have hpf := put_char_fail s h env key v primary hp (by simpa using hps)
      rw [hpf] at hput
      have h0 := Option.some.inj hput
      have h3 : [Call.put primary key] = tr := congrArg (fun p => p.2.2) h0
      rw [← h3]
      simp
  · intro hps
    obtain ⟨env', hput, hdata, hrepl⟩ := put_char_ok s h env key v primary hp hps
    exact ⟨_, env', _, hput, hdata, hrepl⟩

/-- Witness for C9: the three-node cluster where replica 2 refuses the
write; the quorum is still met, and the stored-values conjunct is exercised
with the failing replica excluded. -/
theorem put_no_delete_no_rollback_witness :
    (DistributedKeyValueStore.make [0, 1, 2] 3).getPrimaryNodeForKey
      (fun _ => 1) "k" = some 1 ∧
    ((∀ res env' tr, (DistributedKeyValueStore.make [0, 1, 2] 3).put (fun _ => 1)
        envTwoFails "k" [5] = some (res, env', tr) →
        ∀ n k, Call.delete n k ∉ tr) ∧
      ((envTwoFails 1).putOk "k" [5] = true →
        ∃ res env' tr, (DistributedKeyValueStore.make [0, 1, 2] 3).put (fun _ => 1)
            envTwoFails "k" [5] = some (res, env', tr) ∧
          (env' 1).data "k" = some [5] ∧
          ∀ r ∈ (DistributedKeyValueStore.make [0, 1, 2] 3).getReplicaNodes 1,
            (envTwoFails r).putOk "k" [5] = true → (env' r).data "k" = some [5])) :=
  ⟨by decide,
    put_no_delete_no_rollback (DistributedKeyValueStore.make [0, 1, 2] 3)
      (fun _ => 1) envTwoFails "k" [5] 1 (by decide)⟩

/-- C10: a coordinator over KVNode-style nodes — every node accepts and
stores each write, and the identity list is duplicate-free because distinct
`KVNode` objects are distinct — accepts every `put` for any nonempty node
list and any requested `replicationFactor ≥ 1`: the primary and all
`effectiveReplicationFactor - 1` replicas succeed, and
`1 + (effectiveReplicationFactor - 1)` always reaches the quorum. -/
theorem put_with_kvnodes_always_true (nodes : List Nat) (rf : Int)
    (h : Key → Int) (env : Nat → NodeState) (key : Key) (v : Val)
    (hne : nodes ≠ []) (hnd : nodes.Nodup) (hrf : 1 ≤ rf)
    (hkv : ∀ n k w, (env n).putOk k w = true) :
    ∃ env' tr, (DistributedKeyValueStore.make nodes rf).put h env key v =
      some (true, env', tr) := by
  have hlen : 0 < nodes.length := List.length_pos.mpr hne
  obtain ⟨primary, hp, hpm⟩ :=
    getPrimaryNodeForKey_mem (DistributedKeyValueStore.make nodes rf) h key hne
  obtain ⟨env', hput, _, _⟩ :=
    put_char_ok (DistributedKeyValueStore.make nodes rf) h env key v primary hp
      (hkv primary key v)
  have hrfn : (DistributedKeyValueStore.make nodes rf).replication_factor ≤
      ((DistributedKeyValueStore.make nodes rf).nodes.length : Int) :=
    min_le_left _ _
  have hrf1 : 1 ≤ (DistributedKeyValueStore.make nodes rf).replication_factor := by
    simp only [DistributedKeyValueStore.make, le_min_iff]
    omega
  have hfil : ((DistributedKeyValueStore.make nodes rf).getReplicaNodes primary).filter
      (fun r => (env r).putOk key v) =
      (DistributedKeyValueStore.make nodes rf).getReplicaNodes primary :=
    List.filter_eq_self.mpr (fun a _ => hkv a key v)
  have hbool : decide ((1 : Int) +
      ((replicaSuccessCount (DistributedKeyValueStore.make nodes rf) env key v
        primary : Nat) : Int) ≥
      (DistributedKeyValueStore.make nodes rf).writeQuorum) = true := by
    rw [decide_eq_true_iff]
    unfold replicaSuccessCount
    rw [hfil]
    by_cases h1 : (DistributedKeyValueStore.make nodes rf).replication_factor = 1
    · unfold DistributedKeyValueStore.writeQuorum
      rw [if_pos h1]
      omega
    · have hrf2 : 2 ≤ (DistributedKeyValueStore.make nodes rf).replication_factor := by
        omega
      have hrw := getReplicaNodes_eq_ringWalk (DistributedKeyValueStore.make nodes rf)
        primary hpm hnd hrf2 hrfn
      rw [hrw, ringWalk_length]
      unfold DistributedKeyValueStore.writeQuorum ceilHalf
      rw [if_neg h1]
      omega
  rw [hbool] at hput
  exact ⟨env', _, hput⟩

/-- Witness for C10: three fresh KVNodes, replication factor 3. -/
theorem put_with_kvnodes_always_true_witness :
    (([0, 1, 2] : List Nat) ≠ [] ∧ ([0, 1, 2] : List Nat).Nodup ∧
      (1 : Int) ≤ 3 ∧
      ∀ n k w, ((fun _ => kvNodeInit : Nat → NodeState) n).putOk k w = true) ∧
    ∃ env' tr, (DistributedKeyValueStore.make [0, 1, 2] 3).put (fun _ => 0)
      (fun _ => kvNodeInit) "a" [1, 2] = some (true, env', tr) :=
  ⟨⟨by decide, by decide, by decide, fun n k w => rfl⟩,
    put_with_kvnodes_always_true [0, 1, 2] 3 (fun _ => 0) (fun _ => kvNodeInit)
      "a" [1, 2] (by decide) (by decide) (by decide) (fun n k w => rfl)⟩

end DistKV
